import Mathlib

/-!
Shallow embedding of the in-memory user store from
`src/variables/go_variables_complete.md` (the "HTTP API Server with Variable
Management" fragment): the `User` record, the `Server` state with its
`map[int]*User` collection and `nextID` counter, and the operations
`createUser`, `getUser`, `getAllUsers`, `updateUser`, `getStats`.

Modelling choices, all reflecting the Go source:
* The Go map stores *pointers* to `User`. We model the pointer heap
  explicitly: addresses are `Nat`, `Server.heap` maps addresses to `User`
  values, and `Server.users` maps ids to addresses. `Server.nextAddr` is the
  allocator (each `&User{...}` passed to `createUser` is a fresh cell).
* `time.Now()` is modelled by an explicit `now : Nat` argument; the two
  consecutive `time.Now()` calls inside `createUser` are both `now`.
* Go maps are modelled as association lists; `m[k] = v` is `aset`, `m[k]`
  with the `, ok` form is `alookup`. Go's `range` over a map visits entries
  in an unspecified order that may change between iterations, so iteration
  order is an explicit parameter: any permutation of the entries
  (`IterOrder`).
* The `sync.RWMutex` serialises operations; a sequential small-step model
  (each operation a pure state transformer) captures exactly the states
  reachable under that lock discipline.
-/

/-- `User` struct of the source: ID, Name, Email, Status, CreatedAt, UpdatedAt. -/
structure User where
  id : Int
  name : String
  email : String
  status : String
  createdAt : Nat
  updatedAt : Nat
deriving DecidableEq

/-- `Server` struct of the source: the users map (id to pointer), the `nextID`
counter, host/port/timeout configuration and the `started` timestamp. `heap`
and `nextAddr` model Go's pointer heap. -/
structure Server where
  users : List (Int × Nat)
  nextID : Int
  host : String
  port : Int
  timeout : Nat
  started : Nat
  heap : List (Nat × User)
  nextAddr : Nat
deriving DecidableEq

/-- `ServerStats` struct of the source. -/
structure ServerStats where
  totalUsers : Int
  activeUsers : Int
  inactiveUsers : Int
  uptime : Nat
  startedAt : Nat
deriving DecidableEq

/-- Association-list lookup: Go's `v, ok := m[k]`. -/
def alookup {α β : Type} [DecidableEq α] (k : α) : List (α × β) → Option β
  | [] => none
  | p :: rest => if p.1 = k then some p.2 else alookup k rest

/-- Association-list store: Go's `m[k] = v` (replace if present, append if new). -/
def aset {α β : Type} [DecidableEq α] (k : α) (v : β) : List (α × β) → List (α × β)
  | [] => [(k, v)]
  | p :: rest => if p.1 = k then (k, v) :: rest else p :: aset k v rest

/-- `NewServer`: empty map, `nextID` 1, 30-second timeout, started now. -/
def newServer (host : String) (port : Int) (now : Nat) : Server :=
  { users := []
    nextID := 1
    host := host
    port := port
    timeout := 30
    started := now
    heap := []
    nextAddr := 0 }

/-- The user value built inside `createUser`: the candidate with `ID`
overwritten by `s.nextID`, both timestamps set to now, and `Status`
defaulted to "active" when empty. -/
def newUser (s : Server) (cand : User) (now : Nat) : User :=
  { cand with
      id := s.nextID
      createdAt := now
      updatedAt := now
      status := if cand.status = "" then "active" else cand.status }

/-- `createUser`: assigns `s.nextID`, increments the counter, timestamps the
entity, defaults the status, stores the pointer in the map under the new id,
and returns the pointer (here: the fresh address). -/
def createUser (s : Server) (cand : User) (now : Nat) : Server × Nat :=
  let u := newUser s cand now
  let addr := s.nextAddr
  ({ s with
      users := aset u.id addr s.users
      nextID := s.nextID + 1
      heap := aset addr u s.heap
      nextAddr := s.nextAddr + 1 }, addr)

/-- `getUser`: `user, exists := s.users[id]` under a read lock; `none` models
`(nil, false)`. -/
def getUser (s : Server) (id : Int) : Option Nat :=
  alookup id s.users

/-- Dereference a `*User`: read the heap cell behind an address. -/
def deref (s : Server) (p : Nat) : Option User :=
  alookup p s.heap

/-- One iteration order of Go's `range` over the users map: any permutation
of the map's entries. -/
def IterOrder (s : Server) (entries : List (Int × Nat)) : Prop :=
  entries.Perm s.users

/-- `getAllUsers`: appends every map value (a pointer) to a fresh slice, in
the order `range` happens to visit the entries. -/
def getAllUsers (entries : List (Int × Nat)) : List Nat :=
  entries.map Prod.snd

/-- The field merge done by `updateUser`: each of Name/Email/Status is copied
from `updates` only when non-empty, and `UpdatedAt` is refreshed. -/
def applyUpdate (u updates : User) (now : Nat) : User :=
  let u1 := if updates.name = "" then u else { u with name := updates.name }
  let u2 := if updates.email = "" then u1 else { u1 with email := updates.email }
  let u3 := if updates.status = "" then u2 else { u2 with status := updates.status }
  { u3 with updatedAt := now }

/-- `updateUser`: looks the id up; on a miss returns `(nil, false)` leaving
the state untouched; on a hit mutates the pointed-to user in place (a heap
write) and returns the pointer with `true`. The inner `none` branch is
unreachable for well-formed states (a Go pointer always dereferences). -/
def updateUser (s : Server) (id : Int) (updates : User) (now : Nat) :
    Server × Option Nat :=
  match alookup id s.users with
  | none => (s, none)
  | some addr =>
    match alookup addr s.heap with
    | none => (s, none)
    | some u =>
      ({ s with heap := aset addr (applyUpdate u updates now) s.heap }, some addr)

/-- The status strings of all users in the map, read through their pointers. -/
def storeStatuses (s : Server) : List String :=
  s.users.filterMap fun p => (alookup p.2 s.heap).map User.status

/-- `getStats`: total = map size; one pass over the map values incrementing
`activeCount` when `Status == "active"` and `inactiveCount` otherwise;
uptime = `time.Since(s.started)`. -/
def getStats (s : Server) (now : Nat) : ServerStats :=
  { totalUsers := (s.users.length : Int)
    activeUsers := ((storeStatuses s).countP (fun st => st == "active") : Int)
    inactiveUsers := ((storeStatuses s).countP (fun st => st != "active") : Int)
    uptime := now - s.started
    startedAt := s.started }

/-- Run a sequence of `createUser` calls, returning the final state and the
ids of the returned entities in call-completion order. -/
def applyCreates (s : Server) (now : Nat) : List User → Server × List Int
  | [] => (s, [])
  | c :: cs =>
    let r := createUser s c now
    let rest := applyCreates r.1 now cs
    (rest.1, (newUser s c now).id :: rest.2)

/-- Well-formedness of a server state: every map entry has a live heap cell
whose user carries the entry's id as its own, ids are below `nextID`,
addresses are below `nextAddr`, keys and addresses are duplicate-free, and
every heap cell sits below the allocator. Every state reachable from
`newServer` satisfies this. -/
def WF (s : Server) : Prop :=
  (∀ p ∈ s.users, p.1 < s.nextID ∧ p.2 < s.nextAddr ∧
      (alookup p.2 s.heap).map User.id = some p.1) ∧
  (s.users.map Prod.fst).Nodup ∧
  (s.users.map Prod.snd).Nodup ∧
  (∀ q ∈ s.heap, q.1 < s.nextAddr) ∧
  (s.heap.map Prod.fst).Nodup

/-- The per-status tabulation described by the specification: a mapping from
each distinct status observed to its count, with no entries for statuses not
observed. Stated from the specification's words, for comparison with the
`ServerStats` the code actually returns. -/
def specStatusCounts (statuses : List String) : List (String × Nat) :=
  statuses.dedup.map fun st => (st, statuses.count st)

/-- The only per-status counts `getStats` reports: the two fixed fields. -/
def statsMapping (st : ServerStats) : List (String × Int) :=
  [("active", st.activeUsers), ("inactive", st.inactiveUsers)]

/-- `k` consecutive integers starting at `n`. -/
def idRange (n : Int) : Nat → List Int
  | 0 => []
  | k + 1 => n :: idRange (n + 1) k

/-- The partial change set with only the status provided (the source
signals "field not provided" with the empty string). -/
def inactiveUpdate : User :=
  { id := 0, name := "", email := "", status := "inactive"
    createdAt := 0, updatedAt := 0 }

/-- The all-empty partial change set: every updatable field carries the
"not provided" sentinel. -/
def emptyUpdate : User :=
  { id := 0, name := "", email := "", status := ""
    createdAt := 0, updatedAt := 0 }

instance (s : Server) : Decidable (WF s) := by
  unfold WF
  infer_instance

instance (s : Server) (entries : List (Int × Nat)) : Decidable (IterOrder s entries) := by
  unfold IterOrder
  infer_instance

/-! ### Concrete sample data, used by witnesses and counterexamples -/

/-- A candidate with an empty status and a caller-supplied id the store must
ignore. -/
def uAlice : User :=
  { id := 0, name := "Alice Johnson", email := "alice@company.com"
    status := "", createdAt := 0, updatedAt := 0 }

/-- A candidate that arrives already inactive. -/
def uBob : User :=
  { id := 7, name := "Bob Smith", email := "bob@company.com"
    status := "inactive", createdAt := 0, updatedAt := 0 }

/-- A candidate whose status is neither "active" nor "inactive". -/
def uEve : User :=
  { id := 0, name := "Eve", email := "eve@company.com"
    status := "pending", createdAt := 0, updatedAt := 0 }

/-- A fresh server. -/
def srv0 : Server := newServer "localhost" 8080 0

/-- The server after creating Alice (id 1, address 0). -/
def srv1 : Server := (createUser srv0 uAlice 1).1

/-- The server after also creating Bob (id 2, address 1). -/
def srv2 : Server := (createUser srv1 uBob 2).1

/-- The server holding only the pending user Eve (id 1, address 0). -/
def srvPending : Server := (createUser srv0 uEve 1).1

/-! ### Association-list lemmas -/

theorem alookup_aset_self {α β : Type} [DecidableEq α] (k : α) (v : β) :
    ∀ l : List (α × β), alookup k (aset k v l) = some v := by
  intro l
  induction l with
  | nil => simp [aset, alookup]
  | cons p rest ih =>
    by_cases h : p.1 = k
    · simp [aset, h, alookup]
    · simp [aset, h, alookup, ih]

theorem alookup_aset_ne {α β : Type} [DecidableEq α] {j k : α} (v : β)
    (h : j ≠ k) : ∀ l : List (α × β), alookup j (aset k v l) = alookup j l := by
  have hkj : ¬ (k = j) := fun hh => h hh.symm
  intro l
  induction l with
  | nil => simp [aset, alookup, hkj]
  | cons p rest ih =>
    by_cases hp : p.1 = k
    · subst hp
      simp [aset, alookup, hkj, ih]
    · by_cases hj : p.1 = j
      · simp [aset, hp, alookup, hj, h]
      · simp [aset, hp, alookup, hj, ih]

theorem alookup_eq_none {α β : Type} [DecidableEq α] {k : α} :
    ∀ {l : List (α × β)}, k ∉ l.map Prod.fst → alookup k l = none := by
  intro l
  induction l with
  | nil => intro _; rfl
  | cons p rest ih =>
    intro h
    simp only [List.map_cons, List.mem_cons] at h
    push_neg at h
    have hp : ¬ (p.1 = k) := fun hh => h.1 hh.symm
    simpa [alookup, hp] using ih h.2

theorem aset_fresh_eq_append {α β : Type} [DecidableEq α] {k : α} (v : β) :
    ∀ {l : List (α × β)}, k ∉ l.map Prod.fst → aset k v l = l ++ [(k, v)] := by
  intro l
  induction l with
  | nil => intro _; rfl
  | cons p rest ih =>
    intro h
    simp only [List.map_cons, List.mem_cons] at h
    push_neg at h
    have hp : ¬ (p.1 = k) := fun hh => h.1 hh.symm
    simp [aset, hp, ih h.2]

theorem mem_of_alookup_eq_some {α β : Type} [DecidableEq α] {k : α} {v : β} :
    ∀ {l : List (α × β)}, alookup k l = some v → (k, v) ∈ l := by
  intro l
  induction l with
  | nil => intro h; cases h
  | cons p rest ih =>
    intro h
    by_cases hp : p.1 = k
    · simp only [alookup, hp, if_pos] at h
      have : p = (k, v) := by
        cases p
        simp only at hp
        cases h
        subst hp
        rfl
      rw [← this]
      exact List.mem_cons_self _ _
    · simp only [alookup, hp, if_neg, not_false_iff] at h
      exact List.mem_cons_of_mem _ (ih h)

theorem mem_aset {α β : Type} [DecidableEq α] {k : α} {v : β} {q : α × β} :
    ∀ {l : List (α × β)}, q ∈ aset k v l → q = (k, v) ∨ q ∈ l := by
  intro l
  induction l with
  | nil => intro h; simpa [aset] using h
  | cons p rest ih =>
    intro h
    by_cases hp : p.1 = k
    · simp only [aset, hp, if_pos] at h
      rcases List.mem_cons.1 h with h | h
      · exact Or.inl h
      · exact Or.inr (List.mem_cons_of_mem _ h)
    · simp only [aset, hp, if_neg, not_false_iff] at h
      rcases List.mem_cons.1 h with h | h
      · exact Or.inr (List.mem_cons.2 (Or.inl h))
      · rcases ih h with h | h
        · exact Or.inl h
        · exact Or.inr (List.mem_cons_of_mem _ h)

/-! ### The ids issued by a sequence of creates -/

theorem mem_idRange {i n : Int} : ∀ {k : Nat}, i ∈ idRange n k → n ≤ i ∧ i < n + k := by
  intro k
  induction k generalizing n with
  | zero => intro h; cases h
  | succ k ih =>
    intro h
    rcases List.mem_cons.1 h with h | h
    · subst h
      constructor
      · exact le_refl _
      · have : (0 : Int) < (k : Int) + 1 := by positivity
        omega
    · rcases ih h with ⟨h1, h2⟩
      constructor
      · omega
      · push_cast
        omega

theorem pairwise_idRange (n : Int) : ∀ k : Nat, List.Pairwise (fun a b : Int => a < b) (idRange n k) := by
  intro k
  induction k generalizing n with
  | zero => exact List.Pairwise.nil
  | succ k ih =>
    refine List.Pairwise.cons ?_ (ih (n + 1))
    intro i hi
    have := (mem_idRange hi).1
    omega

theorem nodup_idRange (n : Int) (k : Nat) : (idRange n k).Nodup :=
  (pairwise_idRange n k).imp fun h => ne_of_lt h

theorem applyCreates_ids (now : Nat) :
    ∀ (cs : List User) (s : Server), (applyCreates s now cs).2 = idRange s.nextID cs.length := by
  intro cs
  induction cs with
  | nil => intro s; rfl
  | cons c rest ih =>
    intro s
    simp only [applyCreates, List.length_cons, idRange]
    have h0 : (newUser s c now).id = s.nextID := rfl
    have h1 : (createUser s c now).1.nextID = s.nextID + 1 := rfl
    rw [h0, ih, h1]

theorem applyCreates_nextID (now : Nat) :
    ∀ (cs : List User) (s : Server),
      (applyCreates s now cs).1.nextID = s.nextID + cs.length := by
  intro cs
  induction cs with
  | nil => intro s; simp [applyCreates]
  | cons c rest ih =>
    intro s
    simp only [applyCreates, List.length_cons]
    rw [ih]
    have h1 : (createUser s c now).1.nextID = s.nextID + 1 := rfl
    rw [h1]
    push_cast
    ring

/-! ### Preservation of well-formedness -/

theorem WF_newServer (host : String) (port : Int) (now : Nat) :
    WF (newServer host port now) := by
  refine ⟨?_, ?_, ?_, ?_, ?_⟩ <;> simp [newServer, WF]

theorem WF_createUser {s : Server} (hwf : WF s) (c : User) (now : Nat) :
    WF (createUser s c now).1 := by
  obtain ⟨h1, h2, h3, h4, h5⟩ := hwf
  have hkfresh : s.nextID ∉ s.users.map Prod.fst := by
    intro hmem
    rcases List.mem_map.1 hmem with ⟨p, hp, hpe⟩
    have := (h1 p hp).1
    omega
  have hafresh : s.nextAddr ∉ s.users.map Prod.snd := by
    intro hmem
    rcases List.mem_map.1 hmem with ⟨p, hp, hpe⟩
    have := (h1 p hp).2.1
    omega
  have hhfresh : s.nextAddr ∉ s.heap.map Prod.fst := by
    intro hmem
    rcases List.mem_map.1 hmem with ⟨q, hq, hqe⟩
    have := h4 q hq
    omega
  have hmapid : (newUser s c now).id = s.nextID := rfl
  have husers : (createUser s c now).1.users = s.users ++ [(s.nextID, s.nextAddr)] := by
    simp only [createUser, hmapid]
    exact aset_fresh_eq_append _ hkfresh
  have hheap : (createUser s c now).1.heap = s.heap ++ [(s.nextAddr, newUser s c now)] := by
    simp only [createUser]
    exact aset_fresh_eq_append _ hhfresh
  have hnid : (createUser s c now).1.nextID = s.nextID + 1 := rfl
  have hnad : (createUser s c now).1.nextAddr = s.nextAddr + 1 := rfl
  refine ⟨?_, ?_, ?_, ?_, ?_⟩
  · intro p hp
    rw [husers] at hp
    rw [hheap, hnid, hnad]
    have hheapset : s.heap ++ [(s.nextAddr, newUser s c now)]
        = aset s.nextAddr (newUser s c now) s.heap :=
      (aset_fresh_eq_append _ hhfresh).symm
    rcases List.mem_append.1 hp with hp | hp
    · obtain ⟨ha, hb, hc⟩ := h1 p hp
      refine ⟨by omega, by omega, ?_⟩
      rw [hheapset, alookup_aset_ne _ (by omega) s.heap]
      exact hc
    · simp only [List.mem_singleton] at hp
      subst hp
      refine ⟨by omega, by omega, ?_⟩
      rw [hheapset, alookup_aset_self]
      simp [hmapid]
  · rw [husers]
    simp only [List.map_append, List.map_cons, List.map_nil]
    rw [List.nodup_append]
    exact ⟨h2, List.nodup_singleton _, by simpa [List.disjoint_singleton] using hkfresh⟩
  · rw [husers]
    simp only [List.map_append, List.map_cons, List.map_nil]
    rw [List.nodup_append]
    exact ⟨h3, List.nodup_singleton _, by simpa [List.disjoint_singleton] using hafresh⟩
  · intro q hq
    rw [hheap] at hq
    rw [hnad]
    rcases List.mem_append.1 hq with hq | hq
    · have := h4 q hq
      omega
    · simp only [List.mem_singleton] at hq
      subst hq
      omega
  · rw [hheap]
    simp only [List.map_append, List.map_cons, List.map_nil]
    rw [List.nodup_append]
    exact ⟨h5, List.nodup_singleton _, by simpa [List.disjoint_singleton] using hhfresh⟩

theorem WF_applyCreates {s : Server} (now : Nat) :
    ∀ cs : List User, WF s → WF (applyCreates s now cs).1 := by
  intro cs
  induction cs generalizing s with
  | nil => intro h; exact h
  | cons c rest ih =>
    intro h
    exact ih (WF_createUser h c now)

/-! ### C1 -/

/-- **C1.** For every sequence of `createUser` calls against a `newServer`
(next identifier 1), the returned ids are strictly increasing in
call-completion order and pairwise distinct; and after every prefix of the
sequence, every entity in the map has id equal to its key and the `nextID`
counter is strictly greater than every id issued so far. -/
theorem create_ids_unique_increasing (cands : List User) (host : String)
    (port : Int) (t0 now : Nat) :
    List.Chain' (fun a b : Int => a < b)
      (applyCreates (newServer host port t0) now cands).2 ∧
    (applyCreates (newServer host port t0) now cands).2.Nodup ∧
    ∀ k : Nat,
      (∀ p ∈ (applyCreates (newServer host port t0) now (cands.take k)).1.users,
        (alookup p.2
            (applyCreates (newServer host port t0) now (cands.take k)).1.heap).map User.id
          = some p.1) ∧
      (∀ i ∈ (applyCreates (newServer host port t0) now (cands.take k)).2,
        i < (applyCreates (newServer host port t0) now (cands.take k)).1.nextID) := by
  refine ⟨?_, ?_, ?_⟩
  · rw [applyCreates_ids]
    exact (pairwise_idRange _ _).chain'
  · rw [applyCreates_ids]
    exact nodup_idRange _ _
  · intro k
    constructor
    · intro p hp
      have hwf := WF_applyCreates now (cands.take k) (WF_newServer host port t0)
      exact (hwf.1 p hp).2.2
    · intro i hi
      rw [applyCreates_ids] at hi
      have h := mem_idRange hi
      rw [applyCreates_nextID]
      have h1 : (newServer host port t0).nextID = 1 := rfl
      rw [h1] at h ⊢
      omega

/-- Closed witness for C1: two concrete creates issue ids 1 then 2, and the
entity keyed 1 carries id 1 after both. -/
theorem create_ids_unique_increasing_witness :
    List.Chain' (fun a b : Int => a < b)
      (applyCreates (newServer "localhost" 8080 0) 5 [uAlice, uBob]).2 ∧
    (applyCreates (newServer "localhost" 8080 0) 5 [uAlice, uBob]).2.Nodup ∧
    (alookup ((1 : Int), (0 : Nat)).2
        (applyCreates (newServer "localhost" 8080 0) 5
          ([uAlice, uBob].take 2)).1.heap).map User.id
      = some ((1 : Int), (0 : Nat)).1 := by
  have h := create_ids_unique_increasing [uAlice, uBob] "localhost" 8080 0 5
  exact ⟨h.1, h.2.1, ((h.2.2 2).1 ((1 : Int), (0 : Nat)) (by decide))⟩

/-! ### Freshness consequences of well-formedness -/

theorem nextID_fresh {s : Server} (hwf : WF s) :
    s.nextID ∉ s.users.map Prod.fst := by
  intro hmem
  rcases List.mem_map.1 hmem with ⟨p, hp, hpe⟩
  have := (hwf.1 p hp).1
  omega

theorem nextAddr_fresh_users {s : Server} (hwf : WF s) :
    s.nextAddr ∉ s.users.map Prod.snd := by
  intro hmem
  rcases List.mem_map.1 hmem with ⟨p, hp, hpe⟩
  have := (hwf.1 p hp).2.1
  omega

theorem nextAddr_fresh_heap {s : Server} (hwf : WF s) :
    s.nextAddr ∉ s.heap.map Prod.fst := by
  intro hmem
  rcases List.mem_map.1 hmem with ⟨q, hq, hqe⟩
  have := hwf.2.2.2.1 q hq
  omega

theorem createUser_users_eq {s : Server} (hwf : WF s) (c : User) (now : Nat) :
    (createUser s c now).1.users = s.users ++ [(s.nextID, s.nextAddr)] := by
  have hmapid : (newUser s c now).id = s.nextID := rfl
  simp only [createUser, hmapid]
  exact aset_fresh_eq_append _ (nextID_fresh hwf)

theorem createUser_heap_eq {s : Server} (hwf : WF s) (c : User) (now : Nat) :
    (createUser s c now).1.heap = s.heap ++ [(s.nextAddr, newUser s c now)] := by
  simp only [createUser]
  exact aset_fresh_eq_append _ (nextAddr_fresh_heap hwf)

/-! ### C2 -/

/-- **C2.** A single `createUser` call, from any state and any candidate:
the stored entity's id is the current `nextID` (whatever id the caller
supplied), the counter is incremented, both timestamps are set to now, the
status defaults to "active" exactly when the candidate's status is empty,
the entity is inserted under its new id, and the returned pointer leads to
the fully populated entity. -/
theorem createUser_assigns_and_populates (s : Server) (cand : User) (now : Nat) :
    (newUser s cand now).id = s.nextID ∧
    (createUser s cand now).1.nextID = s.nextID + 1 ∧
    (newUser s cand now).createdAt = now ∧
    (newUser s cand now).updatedAt = now ∧
    (newUser s cand now).status
      = (if cand.status = "" then "active" else cand.status) ∧
    (newUser s cand now).name = cand.name ∧
    (newUser s cand now).email = cand.email ∧
    getUser (createUser s cand now).1 s.nextID = some (createUser s cand now).2 ∧
    deref (createUser s cand now).1 (createUser s cand now).2
      = some (newUser s cand now) := by
  refine ⟨rfl, rfl, rfl, rfl, rfl, rfl, rfl, ?_, ?_⟩
  · show alookup s.nextID (aset (newUser s cand now).id s.nextAddr s.users)
      = some s.nextAddr
    have h : (newUser s cand now).id = s.nextID := rfl
    rw [h, alookup_aset_self]
  · show alookup s.nextAddr (aset s.nextAddr (newUser s cand now) s.heap)
      = some (newUser s cand now)
    rw [alookup_aset_self]

/-! ### C3 -/

theorem applyUpdate_inactive (u : User) (now : Nat) :
    applyUpdate u inactiveUpdate now = { u with status := "inactive", updatedAt := now } := by
  simp [applyUpdate, inactiveUpdate]

/-- **C3.** Updating an existing id with only `status := "inactive"`
returns the success indicator and the updated entity: name, email and
createdAt are untouched, the status becomes "inactive", and `updatedAt`
becomes `now`, no earlier than its previous value. -/
theorem updateUser_status_inactive (s : Server) (id : Int) (now addr : Nat)
    (u : User) (hget : getUser s id = some addr) (hderef : deref s addr = some u)
    (hnow : u.updatedAt ≤ now) :
    (updateUser s id inactiveUpdate now).2 = some addr ∧
    deref (updateUser s id inactiveUpdate now).1 addr
      = some { u with status := "inactive", updatedAt := now } ∧
    u.updatedAt ≤ now := by
  have hu : alookup id s.users = some addr := hget
  have hh : alookup addr s.heap = some u := hderef
  refine ⟨?_, ?_, hnow⟩
  · simp [updateUser, hu, hh]
  · simp [updateUser, hu, hh, deref, alookup_aset_self, applyUpdate_inactive]

/-- Closed witness for C3: Alice (created at time 1 with status defaulted to
"active") updated at time 5. -/
theorem updateUser_status_inactive_witness :
    (updateUser srv1 1 inactiveUpdate 5).2 = some 0 ∧
    deref (updateUser srv1 1 inactiveUpdate 5).1 0
      = some { newUser srv0 uAlice 1 with status := "inactive", updatedAt := 5 } ∧
    (newUser srv0 uAlice 1).updatedAt ≤ 5 :=
  updateUser_status_inactive srv1 1 5 0 (newUser srv0 uAlice 1)
    (by decide) (by decide) (by decide)

/-! ### C4 -/

/-- **C4.** For an id absent from the map, `getUser` reports not-found, and
`updateUser` returns not-found together with the state it was given,
mapping and counter unchanged (and `getUser` is a pure read of the state).
-/
theorem absent_id_not_found (s : Server) (id : Int) (upd : User) (now : Nat)
    (habs : alookup id s.users = none) :
    getUser s id = none ∧ updateUser s id upd now = (s, none) := by
  constructor
  · exact habs
  · simp [updateUser, habs]

/-- Closed witness for C4: id 99999 against the empty store. -/
theorem absent_id_not_found_witness :
    getUser srv0 99999 = none ∧ updateUser srv0 99999 uBob 3 = (srv0, none) :=
  absent_id_not_found srv0 99999 uBob 3 (by decide)

/-! ### C7 -/

/-- **C7.** Immediately after a create, `getUser` on the new id returns the
pointer to that same entity, the pointer still holds the created entity
unchanged, and every snapshot of the new state contains the new entity's
pointer exactly once. -/
theorem create_then_get_and_list (s : Server) (cand : User) (now : Nat)
    (hwf : WF s) (entries : List (Int × Nat))
    (hit : IterOrder (createUser s cand now).1 entries) :
    getUser (createUser s cand now).1 (newUser s cand now).id
      = some (createUser s cand now).2 ∧
    deref (createUser s cand now).1 (createUser s cand now).2
      = some (newUser s cand now) ∧
    (getAllUsers entries).count (createUser s cand now).2 = 1 := by
  refine ⟨?_, ?_, ?_⟩
  · show alookup (newUser s cand now).id
        (aset (newUser s cand now).id s.nextAddr s.users) = some s.nextAddr
    rw [alookup_aset_self]
  · show alookup s.nextAddr (aset s.nextAddr (newUser s cand now) s.heap)
      = some (newUser s cand now)
    rw [alookup_aset_self]
  · have hperm : (entries.map Prod.snd).Perm
        ((createUser s cand now).1.users.map Prod.snd) := hit.map Prod.snd
    have hcount := hperm.count_eq (createUser s cand now).2
    show (entries.map Prod.snd).count (createUser s cand now).2 = 1
    rw [hcount, createUser_users_eq hwf]
    have h2 : (createUser s cand now).2 = s.nextAddr := rfl
    rw [h2]
    simp only [List.map_append, List.map_cons, List.map_nil]
    rw [List.count_append]
    rw [List.count_eq_zero_of_not_mem (nextAddr_fresh_users hwf)]
    simp

/-- Closed witness for C7: Bob created on top of Alice's store, snapshot in
map order. -/
theorem create_then_get_and_list_witness :
    getUser (createUser srv1 uBob 2).1 (newUser srv1 uBob 2).id
      = some (createUser srv1 uBob 2).2 ∧
    deref (createUser srv1 uBob 2).1 (createUser srv1 uBob 2).2
      = some (newUser srv1 uBob 2) ∧
    (getAllUsers (createUser srv1 uBob 2).1.users).count (createUser srv1 uBob 2).2
      = 1 :=
  create_then_get_and_list srv1 uBob 2 (by decide)
    (createUser srv1 uBob 2).1.users (List.Perm.refl _)

/-! ### C10 -/

theorem applyUpdate_empty (u : User) (now : Nat) :
    applyUpdate u emptyUpdate now = { u with updatedAt := now } := by
  simp [applyUpdate, emptyUpdate]

/-- **C10.** Updating an existing id with every updatable field empty
changes none of name/email/status (nor id/createdAt) but still refreshes
`updatedAt` and reports success with the entity's pointer. -/
theorem updateUser_all_fields_empty (s : Server) (id : Int) (now addr : Nat)
    (u : User) (hget : getUser s id = some addr)
    (hderef : deref s addr = some u) :
    (updateUser s id emptyUpdate now).2 = some addr ∧
    deref (updateUser s id emptyUpdate now).1 addr
      = some { u with updatedAt := now } := by
  have hu : alookup id s.users = some addr := hget
  have hh : alookup addr s.heap = some u := hderef
  constructor
  · simp [updateUser, hu, hh]
  · simp [updateUser, hu, hh, deref, alookup_aset_self, applyUpdate_empty]

/-- Closed witness for C10: a no-field update of Alice at time 9. -/
theorem updateUser_all_fields_empty_witness :
    (updateUser srv1 1 emptyUpdate 9).2 = some 0 ∧
    deref (updateUser srv1 1 emptyUpdate 9).1 0
      = some { newUser srv0 uAlice 1 with updatedAt := 9 } :=
  updateUser_all_fields_empty srv1 1 9 0 (newUser srv0 uAlice 1)
    (by decide) (by decide)

/-! ### C6 -/

/-- Counterexample to **C6** as stated: take srv1's only possible snapshot,
the pointer list [0]; without touching that snapshot, a subsequent
successful update of user 1 changes the entity observed through the
snapshot's pointer from status "active" to "inactive". -/
theorem list_snapshot_aliasing_counterexample :
    IterOrder srv1 [((1 : Int), (0 : Nat))] ∧
    getAllUsers [((1 : Int), (0 : Nat))] = [0] ∧
    (updateUser srv1 1 inactiveUpdate 5).2 = some 0 ∧
    (deref srv1 0).map User.status = some "active" ∧
    (deref (updateUser srv1 1 inactiveUpdate 5).1 0).map User.status
      = some "inactive" := by
  have hp : List.Perm [((1 : Int), (0 : Nat))] srv1.users := by decide
  exact ⟨hp, by decide, by decide, by decide, by decide⟩

/-- **C6 (amended).** A snapshot is a fresh slice over shared entities: a
subsequent create changes nothing observable through it and its pointer is
not in it, and the snapshot value itself never feeds back into the store;
but the slice holds pointers into the store, so a subsequent successful
update of an entity in the snapshot is observable through the snapshot's
pointer. -/
theorem list_snapshot_fresh_but_aliasing (s : Server) (hwf : WF s)
    (entries : List (Int × Nat)) (hit : IterOrder s entries)
    (cand : User) (id : Int) (upd : User) (nowc nowu : Nat) :
    (∀ p ∈ getAllUsers entries, deref (createUser s cand nowc).1 p = deref s p) ∧
    (createUser s cand nowc).2 ∉ getAllUsers entries ∧
    (∀ addr u, getUser s id = some addr → deref s addr = some u →
      deref (updateUser s id upd nowu).1 addr = some (applyUpdate u upd nowu)) := by
  refine ⟨?_, ?_, ?_⟩
  · intro p hp
    have hp2 : p ∈ entries.map Prod.snd := hp
    have hpmem : p ∈ s.users.map Prod.snd := (hit.map Prod.snd).mem_iff.1 hp2
    rcases List.mem_map.1 hpmem with ⟨q, hq, hqe⟩
    have hlt : p < s.nextAddr := by
      have := (hwf.1 q hq).2.1
      omega
    show alookup p (aset s.nextAddr (newUser s cand nowc) s.heap) = alookup p s.heap
    exact alookup_aset_ne _ (by omega) s.heap
  · intro hmem
    have h2 : (createUser s cand nowc).2 = s.nextAddr := rfl
    rw [h2] at hmem
    have hmem2 : s.nextAddr ∈ entries.map Prod.snd := hmem
    exact nextAddr_fresh_users hwf ((hit.map Prod.snd).mem_iff.1 hmem2)
  · intro addr u hget hderef
    have hu : alookup id s.users = some addr := hget
    have hh : alookup addr s.heap = some u := hderef
    simp [updateUser, hu, hh, deref, alookup_aset_self]

/-- Closed witness for the amended C6, at srv1 with Bob created and Alice
updated. -/
theorem list_snapshot_fresh_but_aliasing_witness :
    deref (createUser srv1 uBob 2).1 0 = deref srv1 0 ∧
    (createUser srv1 uBob 2).2 ∉ getAllUsers srv1.users ∧
    deref (updateUser srv1 1 inactiveUpdate 5).1 0
      = some (applyUpdate (newUser srv0 uAlice 1) inactiveUpdate 5) := by
  have h := list_snapshot_fresh_but_aliasing srv1 (by decide) srv1.users
    (List.Perm.refl _) uBob 1 inactiveUpdate 2 5
  exact ⟨h.1 0 (by decide), h.2.1,
    h.2.2 0 (newUser srv0 uAlice 1) (by decide) (by decide)⟩

/-! ### C8 -/

/-- Counterexample to **C8** as stated: the two-user store admits both
iteration orders with no intervening mutation, and the two snapshots come
back in different orders. -/
theorem list_order_unstable_counterexample :
    IterOrder srv2 [((1 : Int), (0 : Nat)), ((2 : Int), (1 : Nat))] ∧
    IterOrder srv2 [((2 : Int), (1 : Nat)), ((1 : Int), (0 : Nat))] ∧
    getAllUsers [((1 : Int), (0 : Nat)), ((2 : Int), (1 : Nat))]
      ≠ getAllUsers [((2 : Int), (1 : Nat)), ((1 : Int), (0 : Nat))] := by
  have h1 : List.Perm [((1 : Int), (0 : Nat)), ((2 : Int), (1 : Nat))] srv2.users := by
    decide
  have h2 : List.Perm [((2 : Int), (1 : Nat)), ((1 : Int), (0 : Nat))] srv2.users := by
    decide
  exact ⟨h1, h2, by decide⟩

/-- **C8 (amended).** Two snapshots of the same unmutated state are
content-equal — the same pointers as multisets — though their order follows
the map iteration order and may differ between the two calls. -/
theorem list_twice_content_equal (s : Server) (e1 e2 : List (Int × Nat))
    (h1 : IterOrder s e1) (h2 : IterOrder s e2) :
    (getAllUsers e1).Perm (getAllUsers e2) := by
  have hp : e1.Perm e2 := List.Perm.trans h1 (List.Perm.symm h2)
  exact hp.map Prod.snd

/-- Closed witness for the amended C8, at srv2 with its two iteration
orders. -/
theorem list_twice_content_equal_witness :
    (getAllUsers [((1 : Int), (0 : Nat)), ((2 : Int), (1 : Nat))]).Perm
      (getAllUsers [((2 : Int), (1 : Nat)), ((1 : Int), (0 : Nat))]) :=
  list_twice_content_equal srv2 _ _ (by decide) (by decide)

/-! ### C5 and C9: statistics -/

theorem length_filterMap_of_forall_isSome {α β : Type} (f : α → Option β) :
    ∀ l : List α, (∀ a ∈ l, (f a).isSome) → (l.filterMap f).length = l.length := by
  intro l
  induction l with
  | nil => intro _; rfl
  | cons a rest ih =>
    intro h
    have ha := h a (List.mem_cons_self a rest)
    rcases Option.isSome_iff_exists.1 ha with ⟨b, hb⟩
    rw [List.filterMap_cons, hb]
    simp only [List.length_cons]
    rw [ih fun x hx => h x (List.mem_cons_of_mem a hx)]

theorem storeStatuses_length {s : Server} (hwf : WF s) :
    (storeStatuses s).length = s.users.length := by
  apply length_filterMap_of_forall_isSome
  intro p hp
  have h := (hwf.1 p hp).2.2
  cases halt : alookup p.2 s.heap with
  | none => rw [halt] at h; cases h
  | some u => simp

theorem getStats_total_split {s : Server} (now : Nat) (hwf : WF s) :
    (getStats s now).totalUsers
      = (getStats s now).activeUsers + (getStats s now).inactiveUsers := by
  show (s.users.length : Int)
      = ((storeStatuses s).countP (fun st => st == "active") : Int)
        + ((storeStatuses s).countP (fun st => st != "active") : Int)
  rw [← storeStatuses_length hwf]
  have h := List.length_eq_countP_add_countP (fun st => st == "active")
    (storeStatuses s)
  have h2 : (storeStatuses s).countP (fun a => decide ¬((a == "active") = true))
      = (storeStatuses s).countP (fun st => st != "active") := by
    apply List.countP_congr
    intro a _
    simp [bne]
  rw [h2] at h
  exact_mod_cast h

/-- Counterexample to **C5** as stated: with one "pending" user, the
specification's per-status tabulation is the single entry ("pending", 1),
while the code's `ServerStats` carries only the two fixed counters — a zero
count for the unobserved status "active", the pending user silently counted
under "inactive", and no "pending" entry anywhere. -/
theorem stats_not_per_status_counterexample :
    storeStatuses srvPending = ["pending"] ∧
    specStatusCounts (storeStatuses srvPending) = [("pending", 1)] ∧
    statsMapping (getStats srvPending 2) = [("active", 0), ("inactive", 1)] ∧
    ("active", (0 : Int)) ∈ statsMapping (getStats srvPending 2) ∧
    "active" ∉ storeStatuses srvPending ∧
    "pending" ∉ (statsMapping (getStats srvPending 2)).map Prod.fst := by
  exact ⟨by decide, by decide, by decide, by decide, by decide, by decide⟩

/-- **C5 (amended).** `getStats` returns the total entity count and exactly
two fixed status counters rather than a per-status mapping: the count of
entities whose status is exactly "active" and the count of all others;
these sum to the total on well-formed stores. An empty store yields zero
for all three counts. The computation is a pure read: it builds a fresh
`ServerStats` from the state and returns the state unchanged by
construction. -/
theorem getStats_fixed_counters (s : Server) (now : Nat) (hwf : WF s) :
    (getStats s now).totalUsers
      = (getStats s now).activeUsers + (getStats s now).inactiveUsers ∧
    statsMapping (getStats s now)
      = [("active", ((storeStatuses s).countP (fun st => st == "active") : Int)),
         ("inactive", ((storeStatuses s).countP (fun st => !(st == "active")) : Int))] ∧
    ∀ (host : String) (port : Int) (t0 n2 : Nat),
      getStats (newServer host port t0) n2
        = { totalUsers := 0, activeUsers := 0, inactiveUsers := 0
            uptime := n2 - t0, startedAt := t0 } := by
  refine ⟨getStats_total_split now hwf, rfl, ?_⟩
  intro host port t0 n2
  rfl

/-- Closed witness for the amended C5: the pending store sums correctly and
the empty store reports all-zero counts. -/
theorem getStats_fixed_counters_witness :
    (getStats srvPending 2).totalUsers
      = (getStats srvPending 2).activeUsers + (getStats srvPending 2).inactiveUsers ∧
    getStats (newServer "localhost" 8080 0) 3
      = { totalUsers := 0, activeUsers := 0, inactiveUsers := 0
          uptime := 3, startedAt := 0 } := by
  have h := getStats_fixed_counters srvPending 2 (by decide)
  exact ⟨h.1, h.2.2 "localhost" 8080 0 3⟩

/-- **C9.** On every well-formed store the statistics satisfy
TotalUsers = ActiveUsers + InactiveUsers, because the inactive counter
counts exactly the entities whose status differs from the string "active" —
statuses such as "pending" are folded into the inactive count rather than
reported separately. -/
theorem stats_total_eq_active_add_inactive (s : Server) (now : Nat) (hwf : WF s) :
    (getStats s now).totalUsers
      = (getStats s now).activeUsers + (getStats s now).inactiveUsers ∧
    (getStats s now).inactiveUsers
      = ((storeStatuses s).countP (fun st => !(st == "active")) : Int) :=
  ⟨getStats_total_split now hwf, rfl⟩

/-- Closed witness for C9: the store whose single user is "pending" has
total 1 = active 0 + inactive 1. -/
theorem stats_total_eq_active_add_inactive_witness :
    (getStats srvPending 2).totalUsers
      = (getStats srvPending 2).activeUsers + (getStats srvPending 2).inactiveUsers ∧
    (getStats srvPending 2).inactiveUsers
      = ((storeStatuses srvPending).countP (fun st => !(st == "active")) : Int) :=
  stats_total_eq_active_add_inactive srvPending 2 (by decide)
